import Mathlib

/-!
Shallow embedding of the data-preprocessing and cross-view coordination core of
the ECS272 dashboard (src/Homework2/shaokang/React-Template/src): the row
normalizer `preprocessTracks`, the genre extractor `parseGenresTop`, the
merge-by-track_id stage of `Dashboard.load`, the top-K genre aggregator
`topKGenres`, the selection toggle `onSelect`, and the per-view filtering in
`ScatterView`, `ParallelCoordsView` and `HeatmapView`.

JavaScript strings are modelled as `List Char` (with `String` wrappers at the
boundary); JavaScript numbers as `ℚ` (NaN modelled as `none` of `Option ℚ`),
except `Math.log10`, modelled as `Real.logb 10`.  Missing object keys /
`undefined` values are `none`.
-/

/-! ## JavaScript string primitives -/

/-- Whitespace for `String.prototype.trim` / `Number` coercion, restricted to
the ASCII blanks that occur in the data. -/
def jsIsWS (c : Char) : Bool :=
  c = ' ' || c = '\t' || c = '\n' || c = '\r'

/-- Left part of `trim`: drop leading whitespace. -/
def trimLeft (l : List Char) : List Char :=
  l.dropWhile jsIsWS

/-- Right part of `trim`: drop trailing whitespace. -/
def trimRight (l : List Char) : List Char :=
  (trimLeft l.reverse).reverse

/-- JavaScript `s.trim()`. -/
def jsTrim (l : List Char) : List Char :=
  trimRight (trimLeft l)

/-- Prepend a character to the first chunk. -/
def consHeadChunk (c : Char) : List (List Char) → List (List Char)
  | [] => [[c]]
  | s :: ss => (c :: s) :: ss

/-- Split on a separator character, `String.prototype.split(sep)`: the list of
chunks between occurrences of `sep` (adjacent separators give empty chunks). -/
def splitOnChar (sep : Char) : List Char → List (List Char)
  | [] => [[]]
  | c :: cs =>
    if c = sep then [] :: splitOnChar sep cs
    else consHeadChunk c (splitOnChar sep cs)

/-! ## JavaScript number coercion

`Number(string)` on the decimal forms the CSV data uses: optional sign,
digits with an optional decimal point.  Exponent, hexadecimal and `Infinity`
forms are not modelled.  `none` stands for NaN. -/

/-- Numeric value of a digit string. -/
def digitsToNat (l : List Char) : ℕ :=
  l.foldl (fun a c => 10 * a + (c.toNat - '0'.toNat)) 0

/-- Parse an unsigned decimal: `digits`, `digits.digits`, `digits.` or
`.digits` (at least one digit in total). -/
def parseUnsigned (l : List Char) : Option ℚ :=
  match splitOnChar '.' l with
  | [ip] =>
    if ip ≠ [] ∧ ip.all Char.isDigit then some (digitsToNat ip) else none
  | [ip, fp] =>
    if ip ++ fp ≠ [] ∧ ip.all Char.isDigit ∧ fp.all Char.isDigit then
      some ((digitsToNat ip : ℚ) + (digitsToNat fp : ℚ) / 10 ^ fp.length)
    else none
  | _ => none

/-- JavaScript `Number(s)` for a string `s`: trim; empty is `0`; otherwise an
optionally signed decimal, NaN (`none`) on anything else. -/
def jsNumberOfChars (l : List Char) : Option ℚ :=
  let t := jsTrim l
  if t = [] then some 0
  else
    match t with
    | '+' :: rest => parseUnsigned rest
    | '-' :: rest => (parseUnsigned rest).map (fun q => -q)
    | _ => parseUnsigned t

/-- JavaScript `Number(x)` where `x` is a raw CSV field: a missing key
(`undefined`) is NaN. -/
def jsNumber (x : Option String) : Option ℚ :=
  match x with
  | none => none
  | some s => jsNumberOfChars s.data

/-- The `toNumber` helper of preprocess.ts: `Number(x)` when finite, else the
fallback. -/
def toNumber (x : Option String) (fallback : ℚ) : ℚ :=
  (jsNumber x).getD fallback

/-- The `toBool` helper of preprocess.ts on raw CSV fields (always strings or
missing): a string compares case-insensitively to `"true"`; `undefined` is
falsy. -/
def jsToBool (x : Option String) : Bool :=
  match x with
  | some s => s.toLower = "true"
  | none => false

/-! ## Genre extractor (`parseGenresTop`) -/

/-- Strip one leading `[`, as `s.replace(/^\[/, "")`. -/
def stripLeadBracket (l : List Char) : List Char :=
  match l with
  | '[' :: t => t
  | _ => l

/-- Strip one trailing `]`, as `s.replace(/\]$/, "")`. -/
def stripTrailBracket (l : List Char) : List Char :=
  if l.getLast? = some ']' then l.dropLast else l

/-- Quote characters stripped from genre tokens. -/
def isQuote (c : Char) : Bool :=
  c = '\'' || c = '"'

/-- Strip one leading quote, as `p.replace(/^['"]/, "")`. -/
def stripLeadQuote (l : List Char) : List Char :=
  match l with
  | c :: t => if isQuote c then t else c :: t
  | [] => []

/-- Strip one trailing quote, as `p.replace(/['"]$/, "")`. -/
def stripTrailQuote (l : List Char) : List Char :=
  if (l.getLast?.map isQuote).getD false then l.dropLast else l

/-- One token of the genre list: `p.trim().replace(/^['"]/, "").replace(/['"]$/, "")`. -/
def cleanPiece (l : List Char) : List Char :=
  stripTrailQuote (stripLeadQuote (jsTrim l))

/-- Split on commas, clean each piece, drop empties, and take the first piece
(`parts[0] ?? "Unknown"`). -/
def firstPieceOrUnknown (l : List Char) : List Char :=
  match ((splitOnChar ',' l).map cleanPiece).filter (fun p => 0 < p.length) with
  | [] => "Unknown".data
  | p :: _ => p

/-- The source's `parseGenresTop` over `List Char`: falsy input or the markers
`""`/`"[]"` give `"Unknown"`; otherwise the brackets are stripped, the trimmed
inner text is split on commas and the first cleaned non-empty piece wins. -/
def parseGenresTopChars (g : List Char) : List Char :=
  if g = [] then "Unknown".data
  else if jsTrim g = "[]".data ∨ jsTrim g = [] then "Unknown".data
  else if jsTrim (stripTrailBracket (stripLeadBracket (jsTrim g))) = [] then "Unknown".data
  else firstPieceOrUnknown (jsTrim (stripTrailBracket (stripLeadBracket (jsTrim g))))

/-- String-level `parseGenresTop`. -/
def parseGenresTop (g : String) : String :=
  String.mk (parseGenresTopChars g.data)

/-- Claim C5's wording of the extractor: trim; `""`/`"[]"` give `"Unknown"`;
otherwise strip one leading `[` and one trailing `]`, split the remainder on
commas, clean each piece, discard empties and return the first remaining
piece, else `"Unknown"`.  (It omits the source's extra trim of the inner
text and its early return when that trim is empty.) -/
def parseGenresTopClaim (g : List Char) : List Char :=
  if jsTrim g = [] ∨ jsTrim g = "[]".data then "Unknown".data
  else firstPieceOrUnknown (stripTrailBracket (stripLeadBracket (jsTrim g)))

/-! ### Trim/split bridging lemmas -/

theorem jsIsWS_ne_sep {c : Char} (h : jsIsWS c = true) : c ≠ ',' ∧ c ≠ '.' := by
  simp only [jsIsWS, Bool.or_eq_true, decide_eq_true_eq] at h
  rcases h with ((h | h) | h) | h <;> subst h <;> exact ⟨by decide, by decide⟩

theorem trimLeft_cons_of_ws {c : Char} (h : jsIsWS c = true) (l : List Char) :
    trimLeft (c :: l) = trimLeft l := by
  simp [trimLeft, List.dropWhile_cons, h]

theorem jsTrim_cons_of_ws {c : Char} (h : jsIsWS c = true) (l : List Char) :
    jsTrim (c :: l) = jsTrim l := by
  simp [jsTrim, trimLeft_cons_of_ws h]

theorem trimRight_snoc_of_ws {c : Char} (h : jsIsWS c = true) (l : List Char) :
    trimRight (l ++ [c]) = trimRight l := by
  simp [trimRight, trimLeft_cons_of_ws h]

theorem trimRight_snoc_of_not_ws {c : Char} (h : ¬ jsIsWS c = true) (l : List Char) :
    trimRight (l ++ [c]) = l ++ [c] := by
  simp only [trimRight, List.reverse_append, List.reverse_cons, List.reverse_nil,
    List.nil_append, List.cons_append, trimLeft, List.dropWhile_cons]
  simp [h]

theorem jsTrim_snoc_of_ws {c : Char} (h : jsIsWS c = true) (l : List Char) :
    jsTrim (l ++ [c]) = jsTrim l := by
  unfold jsTrim
  by_cases hall : l.all jsIsWS
  · have h1 : trimLeft (l ++ [c]) = [] := by
      simp only [trimLeft, List.dropWhile_append]
      simp_all [trimLeft, List.dropWhile_eq_nil_iff, List.all_eq_true]
    have h2 : trimLeft l = [] := by
      simp_all [trimLeft, List.dropWhile_eq_nil_iff, List.all_eq_true]
    simp [h1, h2]
  · have h1 : trimLeft (l ++ [c]) = trimLeft l ++ [c] := by
      simp only [trimLeft, List.dropWhile_append]
      rw [if_neg]
      simp_all [List.all_eq_true, List.dropWhile_eq_nil_iff]
    rw [h1, trimRight_snoc_of_ws h]

theorem splitOnChar_ne_nil (sep : Char) (l : List Char) : splitOnChar sep l ≠ [] := by
  cases l with
  | nil => simp [splitOnChar]
  | cons c cs =>
    rw [splitOnChar]
    by_cases h : c = sep
    · simp [h]
    · rw [if_neg h]
      rcases hs : splitOnChar sep cs with _ | ⟨s, ss⟩ <;> simp [consHeadChunk]

/-- Appending a character to the last chunk. -/
def appendLastChunk (c : Char) : List (List Char) → List (List Char)
  | [] => [[c]]
  | [s] => [s ++ [c]]
  | s :: ss => s :: appendLastChunk c ss

theorem appendLastChunk_cons_cons (c : Char) (s t : List Char) (ts : List (List Char)) :
    appendLastChunk c (s :: t :: ts) = s :: appendLastChunk c (t :: ts) :=
  rfl

theorem consHeadChunk_appendLastChunk (c d : Char) :
    ∀ L : List (List Char), L ≠ [] →
      consHeadChunk d (appendLastChunk c L) = appendLastChunk c (consHeadChunk d L)
  | [], hne => absurd rfl hne
  | [_], _ => rfl
  | _ :: _ :: _, _ => rfl

theorem splitOnChar_snoc_of_ne {sep c : Char} (h : ¬ c = sep) (l : List Char) :
    splitOnChar sep (l ++ [c]) = appendLastChunk c (splitOnChar sep l) := by
  induction l with
  | nil =>
    rw [List.nil_append]
    simp only [splitOnChar, if_neg h]
    rfl
  | cons d ds ih =>
    rw [List.cons_append, splitOnChar, splitOnChar]
    by_cases hd : d = sep
    · rw [if_pos hd, if_pos hd, ih]
      obtain ⟨s, ss, hs⟩ := List.exists_cons_of_ne_nil (splitOnChar_ne_nil sep ds)
      rw [hs]
      exact (appendLastChunk_cons_cons c [] s ss).symm
    · rw [if_neg hd, if_neg hd, ih]
      exact consHeadChunk_appendLastChunk c d _ (splitOnChar_ne_nil sep ds)

theorem map_jsTrim_appendLastChunk {c : Char} (h : jsIsWS c = true) :
    ∀ L : List (List Char), L ≠ [] →
      (appendLastChunk c L).map jsTrim = L.map jsTrim
  | [], hne => absurd rfl hne
  | [s], _ => by simp [appendLastChunk, jsTrim_snoc_of_ws h]
  | s :: t :: ts, _ => by
    have ih := map_jsTrim_appendLastChunk h (t :: ts) (by simp)
    simp only [appendLastChunk, List.map_cons] at ih ⊢
    rw [ih]

theorem map_jsTrim_splitOnChar_trimLeft (l : List Char) :
    ((splitOnChar ',' (trimLeft l)).map jsTrim) = (splitOnChar ',' l).map jsTrim := by
  induction l with
  | nil => rfl
  | cons c cs ih =>
    by_cases h : jsIsWS c
    · have hc : ¬ c = ',' := (jsIsWS_ne_sep h).1
      rw [trimLeft_cons_of_ws h, ih, splitOnChar, if_neg hc]
      obtain ⟨s, ss, hs⟩ := List.exists_cons_of_ne_nil (splitOnChar_ne_nil ',' cs)
      rw [hs, consHeadChunk, List.map_cons, List.map_cons, jsTrim_cons_of_ws h]
    · have : trimLeft (c :: cs) = c :: cs := by
        simp [trimLeft, List.dropWhile_cons, h]
      rw [this]

theorem map_jsTrim_splitOnChar_trimRight (l : List Char) :
    ((splitOnChar ',' (trimRight l)).map jsTrim) = (splitOnChar ',' l).map jsTrim := by
  induction l using List.reverseRecOn with
  | nil => rfl
  | append_singleton u c ih =>
    by_cases h : jsIsWS c
    · rw [trimRight_snoc_of_ws h, ih,
        splitOnChar_snoc_of_ne (jsIsWS_ne_sep h).1,
        map_jsTrim_appendLastChunk h _ (splitOnChar_ne_nil ',' u)]
    · rw [trimRight_snoc_of_not_ws h]

theorem map_jsTrim_splitOnChar_jsTrim (l : List Char) :
    ((splitOnChar ',' (jsTrim l)).map jsTrim) = (splitOnChar ',' l).map jsTrim := by
  rw [show jsTrim l = trimRight (trimLeft l) from rfl,
    map_jsTrim_splitOnChar_trimRight, map_jsTrim_splitOnChar_trimLeft]

theorem map_cleanPiece_eq_map_of_map_jsTrim {x y : List (List Char)}
    (h : x.map jsTrim = y.map jsTrim) : x.map cleanPiece = y.map cleanPiece := by
  have hx : x.map cleanPiece =
      (x.map jsTrim).map (fun m => stripTrailQuote (stripLeadQuote m)) := by
    rw [List.map_map]
    rfl
  have hy : y.map cleanPiece =
      (y.map jsTrim).map (fun m => stripTrailQuote (stripLeadQuote m)) := by
    rw [List.map_map]
    rfl
  rw [hx, hy, h]

theorem firstPieceOrUnknown_jsTrim (l : List Char) :
    firstPieceOrUnknown (jsTrim l) = firstPieceOrUnknown l := by
  unfold firstPieceOrUnknown
  rw [map_cleanPiece_eq_map_of_map_jsTrim (map_jsTrim_splitOnChar_jsTrim l)]

theorem firstPieceOrUnknown_of_jsTrim_nil {l : List Char} (h : jsTrim l = []) :
    firstPieceOrUnknown l = "Unknown".data := by
  rw [← firstPieceOrUnknown_jsTrim, h]
  rfl

/-! ## Row model

`RawRow` is one row as the CSV loader delivers it: every present column is a
string, a missing column is `none`.  `TrackRow` is the normalized record
`preprocessTracks` produces.  Numeric fields are `ℚ`; fields whose value can
be `undefined` after normalization are `Option`-valued.  `followers_log` is
`Option ℝ` because consumers test it against `null`. -/

structure RawRow where
  track_id : String
  track_number : Option String := none
  track_popularity : Option String := none
  explicit : Option String := none
  artist_popularity : Option String := none
  artist_followers : Option String := none
  artist_genres : Option String := none
  album_release_date : Option String := none
  album_total_tracks : Option String := none
  album_type : Option String := none
  track_duration_ms : Option String := none
  track_duration_min : Option String := none

structure TrackRow where
  track_id : String
  track_number : ℚ
  track_popularity : ℚ
  explicit : Bool
  artist_popularity : ℚ
  artist_followers : ℚ
  album_total_tracks : ℚ
  album_type : Option String
  track_duration_ms : Option ℚ
  track_duration_min : Option ℚ
  release_year : Option ℚ
  followers_log : Option ℝ
  duration_min : Option ℚ
  genre_top : Option String

/-! ## Row Normalizer (`preprocessTracks`) -/

/-- Raw year value: `Number(r.album_release_date.slice(0, 4))` when the date
is a string of length at least 4, NaN otherwise. -/
def yearRawOf (r : RawRow) : Option ℚ :=
  match r.album_release_date with
  | some d => if 4 ≤ d.length then jsNumberOfChars (d.data.take 4) else none
  | none => none

/-- Accepted release year: finite and within `[1900, currentYear + 1]`,
otherwise `undefined`. -/
def yearOf (currentYear : ℚ) (r : RawRow) : Option ℚ :=
  match yearRawOf r with
  | some v => if 1900 ≤ v ∧ v ≤ currentYear + 1 then some v else none
  | none => none

/-- Milliseconds duration: `r.track_duration_ms != null ? toNumber(r.track_duration_ms, NaN) : NaN`. -/
def msOf (r : RawRow) : Option ℚ :=
  match r.track_duration_ms with
  | some s => jsNumberOfChars s.data
  | none => none

/-- Minutes column: `r.track_duration_min != null ? toNumber(r.track_duration_min, NaN) : NaN`. -/
def minFromColOf (r : RawRow) : Option ℚ :=
  match r.track_duration_min with
  | some s => jsNumberOfChars s.data
  | none => none

/-- Coerced follower count: `toNumber(r.artist_followers, 0)`. -/
def followersOf (r : RawRow) : ℚ :=
  toNumber r.artist_followers 0

/-- The row normalizer, one row of `preprocessTracks`.  `Math.log10` is
modelled by `Real.logb 10`; the normalizer always stores a `followers_log`
value, so the field is `some` on every normalized row. -/
noncomputable def preprocessRow (currentYear : ℚ) (r : RawRow) : TrackRow :=
  { track_id := r.track_id
    track_number := toNumber r.track_number 0
    track_popularity := toNumber r.track_popularity 0
    explicit := jsToBool r.explicit
    artist_popularity := toNumber r.artist_popularity 0
    artist_followers := followersOf r
    album_total_tracks := toNumber r.album_total_tracks 0
    album_type := r.album_type
    track_duration_ms := msOf r
    track_duration_min := minFromColOf r
    release_year := yearOf currentYear r
    followers_log := some (Real.logb 10 ((followersOf r : ℝ) + 1))
    duration_min := (minFromColOf r).orElse (fun _ => (msOf r).map (fun m => m / 60000))
    genre_top := some (parseGenresTop ((r.artist_genres).getD "")) }

/-- The `preprocessTracks` map over raw rows, parameterized by the host's
`new Date().getFullYear()`. -/
noncomputable def preprocessTracks (currentYear : ℚ) (rows : List RawRow) : List TrackRow :=
  rows.map (preprocessRow currentYear)

/-! ## Insertion-ordered map (JavaScript `Map`)

An association list with `Map.set` semantics: an existing key keeps its
position and gets the new value, a new key is appended. -/

def mapSet {α : Type} : List (String × α) → String → α → List (String × α)
  | [], k, v => [(k, v)]
  | (a, b) :: ps, k, v => if a = k then (k, v) :: ps else (a, b) :: mapSet ps k v

def mapGet {α : Type} : List (String × α) → String → Option α
  | [], _ => none
  | (a, b) :: ps, k => if a = k then some b else mapGet ps k

theorem mapGet_mapSet {α : Type} (m : List (String × α)) (k k' : String) (v : α) :
    mapGet (mapSet m k v) k' = if k' = k then some v else mapGet m k' := by
  induction m with
  | nil =>
    simp only [mapSet, mapGet]
    by_cases h : k = k'
    · rw [if_pos h, if_pos h.symm]
    · rw [if_neg h, if_neg (fun hh => h hh.symm)]
  | cons p ps ih =>
    obtain ⟨a, b⟩ := p
    simp only [mapSet]
    by_cases ha : a = k
    · rw [if_pos ha]
      simp only [mapGet]
      by_cases h : k = k'
      · rw [if_pos h, if_pos h.symm]
      · rw [if_neg h, if_neg (fun hh => h hh.symm),
          if_neg (fun hh => h (ha.symm.trans hh))]
    · rw [if_neg ha]
      simp only [mapGet]
      by_cases hk : a = k'
      · rw [if_pos hk, if_neg (fun hh => ha (hk.trans hh)), if_pos hk]
      · rw [if_neg hk, if_neg hk, ih]

/-! ## Merge Stage (`Dashboard.load`)

The source loop, generic in the row type:

    const map = new Map();
    for (const r of B) map.set(r.track_id, r);
    for (const r of A) map.set(r.track_id, { ...map.get(r.track_id), ...r });

`spread prev r` models `{ ...prev, ...r }`. -/

def jsMapMerge {ρ : Type} (getId : ρ → String) (spread : ρ → ρ → ρ)
    (A B : List ρ) : List (String × ρ) :=
  A.foldl
    (fun m r =>
      mapSet m (getId r)
        (match mapGet m (getId r) with
         | some prev => spread prev r
         | none => r))
    (B.foldl (fun m r => mapSet m (getId r) r) [])

/-- Spread of two normalized rows, `{ ...prev, ...r }`: `preprocessTracks`
sets every modelled key on `r` (optional fields carry an explicit `undefined`
value, which in JavaScript still overrides), so `r` wins on every modelled
field. -/
def spreadTrackRows (_prev r : TrackRow) : TrackRow := r

/-- The merge-by-`track_id` stage of `Dashboard.load` on normalized rows. -/
def loadMerge (A B : List TrackRow) : List (String × TrackRow) :=
  jsMapMerge (fun r => r.track_id) spreadTrackRows A B

/-! ### Partial rows for the merge contract (claim C3)

The merge loop itself is field-level: a record is its identifier plus a
field table, and `{ ...b, ...a }` takes `a`'s value on every key `a` has and
keeps `b`'s other keys. -/

structure PartialRow (V : Type) where
  track_id : String
  fields : List (String × V)
deriving DecidableEq

/-- Field lookup (first occurrence, as JavaScript property access on records
built without duplicate keys). -/
def getField {V : Type} (r : PartialRow V) (f : String) : Option V :=
  mapGet r.fields f

/-- JavaScript `{ ...b, ...a }` on the field tables: keys of `b` keep their
position but take `a`'s value when `a` also has the key; keys only in `a`
are appended in `a`'s order. -/
def spreadFields {V : Type} (b a : List (String × V)) : List (String × V) :=
  b.map (fun p =>
    match mapGet a p.1 with
    | some v => (p.1, v)
    | none => p) ++
  a.filter (fun q => !(b.any (fun p => p.1 = q.1)))

/-- Record-level `{ ...b, ...a }`. -/
def spreadRows {V : Type} (b a : PartialRow V) : PartialRow V :=
  { track_id := a.track_id, fields := spreadFields b.fields a.fields }

/-- The merge-by-`track_id` loop on partial rows. -/
def partialMerge {V : Type} (A B : List (PartialRow V)) : List (String × PartialRow V) :=
  jsMapMerge (fun r => r.track_id) spreadRows A B

/-- Equivalence of the source extractor and claim C5's description of it. -/
theorem parseGenresTopChars_eq_claim (g : List Char) :
    parseGenresTopChars g = parseGenresTopClaim g := by
  unfold parseGenresTopChars parseGenresTopClaim
  by_cases hg : g = []
  · subst hg
    rfl
  · rw [if_neg hg]
    by_cases hmark : jsTrim g = "[]".data ∨ jsTrim g = []
    · rw [if_pos hmark, if_pos (Or.symm hmark)]
    · rw [if_neg hmark, if_neg fun h => hmark (Or.symm h)]
      by_cases hin : jsTrim (stripTrailBracket (stripLeadBracket (jsTrim g))) = []
      · rw [if_pos hin, firstPieceOrUnknown_of_jsTrim_nil hin]
      · rw [if_neg hin, firstPieceOrUnknown_jsTrim]

/-! ### Merge lemmas -/

theorem foldl_set_get_other {ρ : Type} (getId : ρ → String)
    (F : List (String × ρ) → ρ → ρ) :
    ∀ (L : List ρ) (m0 : List (String × ρ)) (k : String), (∀ r ∈ L, getId r ≠ k) →
      mapGet (L.foldl (fun m r => mapSet m (getId r) (F m r)) m0) k = mapGet m0 k
  | [], _, _, _ => rfl
  | r :: rs, m0, k, h => by
    rw [List.foldl_cons,
      foldl_set_get_other getId F rs _ k (fun x hx => h x (List.mem_cons_of_mem r hx)),
      mapGet_mapSet, if_neg (fun hh => h r (List.mem_cons_self r rs) hh.symm)]

theorem exists_split_of_mem_nodup {ρ : Type} (getId : ρ → String) {A : List ρ} {r : ρ}
    (hmem : r ∈ A) (hnd : (A.map getId).Nodup) :
    ∃ A1 A2, A = A1 ++ r :: A2 ∧ (∀ x ∈ A1, getId x ≠ getId r) ∧
      ∀ x ∈ A2, getId x ≠ getId r := by
  obtain ⟨A1, A2, rfl⟩ := List.append_of_mem hmem
  rw [List.map_append, List.map_cons, List.nodup_append] at hnd
  obtain ⟨_, h2, hdisj⟩ := hnd
  refine ⟨A1, A2, rfl, ?_, ?_⟩
  · intro x hx hEq
    exact hdisj (List.mem_map_of_mem getId hx) (hEq ▸ List.mem_cons_self _ _)
  · intro x hx hEq
    exact (List.nodup_cons.mp h2).1 (hEq ▸ List.mem_map_of_mem getId hx)

theorem mapGet_insert_phase {ρ : Type} (getId : ρ → String) {B : List ρ} {rB : ρ}
    (hndB : (B.map getId).Nodup) (hB : rB ∈ B) :
    mapGet (B.foldl (fun m r => mapSet m (getId r) r) []) (getId rB) = some rB := by
  obtain ⟨B1, B2, rfl, _, h2⟩ := exists_split_of_mem_nodup getId hB hndB
  rw [List.foldl_append, List.foldl_cons,
    foldl_set_get_other getId (fun _ r => r) B2 _ _ h2,
    mapGet_mapSet, if_pos rfl]

theorem mapGet_jsMapMerge_shared {ρ : Type} (getId : ρ → String) (spread : ρ → ρ → ρ)
    {A B : List ρ} {rA rB : ρ}
    (hndA : (A.map getId).Nodup) (hndB : (B.map getId).Nodup)
    (hA : rA ∈ A) (hB : rB ∈ B) (hk : getId rA = getId rB) :
    mapGet (jsMapMerge getId spread A B) (getId rA) = some (spread rB rA) := by
  obtain ⟨A1, A2, rfl, h1, h2⟩ := exists_split_of_mem_nodup getId hA hndA
  unfold jsMapMerge
  rw [List.foldl_append, List.foldl_cons,
    foldl_set_get_other getId _ A2 _ _ h2,
    mapGet_mapSet, if_pos rfl]
  have hmB : mapGet
      (A1.foldl
        (fun m r =>
          mapSet m (getId r)
            (match mapGet m (getId r) with
             | some prev => spread prev r
             | none => r))
        (B.foldl (fun m r => mapSet m (getId r) r) [])) (getId rA) = some rB := by
    rw [foldl_set_get_other getId _ A1 _ _ h1, hk]
    exact mapGet_insert_phase getId hndB hB
  rw [hmB]

theorem mapGet_jsMapMerge_b_only {ρ : Type} (getId : ρ → String) (spread : ρ → ρ → ρ)
    {A B : List ρ} {rB : ρ}
    (hndB : (B.map getId).Nodup) (hB : rB ∈ B)
    (hnotA : ∀ r ∈ A, getId r ≠ getId rB) :
    mapGet (jsMapMerge getId spread A B) (getId rB) = some rB := by
  unfold jsMapMerge
  rw [foldl_set_get_other getId _ A _ _ hnotA]
  exact mapGet_insert_phase getId hndB hB

/-! ### Spread lemmas -/

theorem mapGet_append {V : Type} (x y : List (String × V)) (f : String) :
    mapGet (x ++ y) f = (mapGet x f).orElse (fun _ => mapGet y f) := by
  induction x with
  | nil => rfl
  | cons q qs ih =>
    obtain ⟨a, b⟩ := q
    rw [List.cons_append, mapGet, mapGet]
    by_cases h : a = f
    · rw [if_pos h, if_pos h]
      rfl
    · rw [if_neg h, if_neg h, ih]

theorem mapGet_map_spreadEntry {V : Type} (a : List (String × V)) :
    ∀ (b : List (String × V)) (f : String),
      mapGet (b.map (fun p =>
        match mapGet a p.1 with
        | some v => (p.1, v)
        | none => p)) f =
      match mapGet b f with
      | some w => some ((mapGet a f).getD w)
      | none => none
  | [], _ => rfl
  | ⟨x, w⟩ :: bs, f => by
    by_cases hx : x = f
    · subst hx
      cases ha : mapGet a x with
      | none =>
        simp only [List.map_cons, ha, mapGet, if_pos rfl]
        rfl
      | some v =>
        simp only [List.map_cons, ha, mapGet, if_pos rfl]
        rfl
    · cases ha : mapGet a x with
      | none =>
        simp only [List.map_cons, ha, mapGet, if_neg hx]
        exact mapGet_map_spreadEntry a bs f
      | some v =>
        simp only [List.map_cons, ha, mapGet, if_neg hx]
        exact mapGet_map_spreadEntry a bs f

theorem mapGet_filter_keyStable {V : Type} (p : String × V → Bool) (f : String)
    (hf : ∀ q : String × V, q.1 = f → p q = true) :
    ∀ a : List (String × V), mapGet (a.filter p) f = mapGet a f
  | [] => rfl
  | ⟨x, w⟩ :: qs => by
    by_cases hx : x = f
    · rw [List.filter_cons_of_pos (hf _ hx), mapGet, mapGet, if_pos hx, if_pos hx]
    · by_cases hp : p (x, w) = true
      · rw [List.filter_cons_of_pos hp, mapGet, mapGet, if_neg hx, if_neg hx,
          mapGet_filter_keyStable p f hf qs]
      · rw [List.filter_cons_of_neg (by simpa using hp), mapGet, if_neg hx,
          mapGet_filter_keyStable p f hf qs]

theorem mapGet_eq_none_of_any_eq_false {V : Type} {f : String} :
    ∀ {m : List (String × V)}, m.any (fun p => p.1 = f) = false → mapGet m f = none
  | [], _ => rfl
  | ⟨x, w⟩ :: qs, h => by
    rw [List.any_cons, Bool.or_eq_false_iff] at h
    rw [mapGet, if_neg (by simpa using h.1), mapGet_eq_none_of_any_eq_false h.2]

theorem any_eq_false_of_mapGet_eq_none {V : Type} {f : String} :
    ∀ {m : List (String × V)}, mapGet m f = none → m.any (fun p => p.1 = f) = false
  | [], _ => rfl
  | ⟨x, w⟩ :: qs, h => by
    rw [mapGet] at h
    by_cases hx : x = f
    · rw [if_pos hx] at h
      exact absurd h (by simp)
    · rw [if_neg hx] at h
      rw [List.any_cons, Bool.or_eq_false_iff]
      exact ⟨by simpa using hx, any_eq_false_of_mapGet_eq_none h⟩

/-- Field-level contract of `{ ...b, ...a }`: `a`'s value on every key `a`
has, `b`'s value on keys only `b` has. -/
theorem getField_spreadRows {V : Type} (b a : PartialRow V) (f : String) :
    getField (spreadRows b a) f =
      match getField a f with
      | some v => some v
      | none => getField b f := by
  unfold getField spreadRows spreadFields
  rw [mapGet_append, mapGet_map_spreadEntry]
  cases hb : mapGet b.fields f with
  | some w =>
    cases ha : mapGet a.fields f with
    | some v => rfl
    | none => rfl
  | none =>
    have hfil : mapGet
        (a.fields.filter (fun q => !(b.fields.any (fun p => p.1 = q.1)))) f =
        mapGet a.fields f := by
      apply mapGet_filter_keyStable
      intro q hq
      rw [hq, any_eq_false_of_mapGet_eq_none hb]
      rfl
    rw [hfil]
    cases ha : mapGet a.fields f with
    | some v => rfl
    | none => rfl

/-! ## Selection State (`Dashboard` + `HeatmapView.onSelect`) -/

structure SelState where
  selectedYear : Option ℚ
  selectedGenre : Option String
deriving DecidableEq

/-- The `onSelect` callback the Dashboard hands to the heatmap:

    const same = year === selectedYear && genre === selectedGenre;
    setSelectedYear(same ? null : year);
    setSelectedGenre(same ? null : genre);
-/
def selectCell (st : SelState) (year : ℚ) (genre : String) : SelState :=
  if st.selectedYear = some year ∧ st.selectedGenre = some genre then
    { selectedYear := none, selectedGenre := none }
  else
    { selectedYear := some year, selectedGenre := some genre }

/-! ## Top-K Aggregator (`topKGenres`) -/

/-- Genre label of a row as the scatter and parallel-coordinates views read
it: `d.genre_top ?? "Unknown"`. -/
def rowLabel (d : TrackRow) : String :=
  d.genre_top.getD "Unknown"

/-- One step of the counting pass: `counts.set(g, (counts.get(g) ?? 0) + 1)`. -/
def bumpCount (m : List (String × ℕ)) (g : String) : List (String × ℕ) :=
  mapSet m g ((mapGet m g).getD 0 + 1)

/-- Frequency table of a label list, in first-encounter key order (the `Map`
counting pass of `topKGenres`). -/
def countLabels (labels : List String) : List (String × ℕ) :=
  labels.foldl bumpCount []

/-- The sort comparator `(a, b) => b[1] - a[1]` (and `d3.descending(a[1], b[1])`):
`x` may precede `y` iff the comparator is nonpositive iff `y`'s count is at
most `x`'s.  `Array.prototype.sort` is stable, modelled by `List.mergeSort`. -/
def descByCount (x y : String × ℕ) : Bool :=
  y.2 ≤ x.2

/-- Top-K labels of a label list: count, stable-sort descending, take `k`,
keep the labels (`new Set` of distinct keys, as an ordered list). -/
def topKLabels (labels : List String) (k : ℕ) : List String :=
  (((countLabels labels).mergeSort descByCount).take k).map Prod.fst

/-- The source's `topKGenres(data, k)`. -/
def topKGenres (data : List TrackRow) (k : ℕ) : List String :=
  topKLabels (data.map rowLabel) k

/-! ## ScatterView filtering -/

/-- Validity filter of the scatter view: `followers_log != null &&
Number.isFinite(followers_log) && track_popularity != null &&
Number.isFinite(track_popularity)`.  In the model `followers_log` carries a
finite real when present and `track_popularity` is always a finite number, so
the check is presence of `followers_log`. -/
def scatterBase (data : List TrackRow) : List TrackRow :=
  data.filter (fun d => d.followers_log.isSome)

/-- The year filter shared by the scatter and parallel-coordinates views:
`rows.filter((d) => d.release_year === selectedYear)` when a year is
selected. -/
def yearFilter (rows : List TrackRow) (selYear : Option ℚ) : List TrackRow :=
  match selYear with
  | some y => rows.filter (fun d => d.release_year = some y)
  | none => rows

/-- Scatter rows after validity and year filtering — the list the scatter's
`topKGenres(rows, 10)` call sees. -/
def scatterRows (data : List TrackRow) (selYear : Option ℚ) : List TrackRow :=
  yearFilter (scatterBase data) selYear

/-- Bucketing a row by a top list: `top.has(g) ? g : "Other"`. -/
def bucketLabel (top : List String) (d : TrackRow) : String :=
  if rowLabel d ∈ top then rowLabel d else "Other"

/-- The scatter view's top-10 set when a genre selection is active. -/
def scatterTop (data : List TrackRow) (selYear : Option ℚ) : List String :=
  topKGenres (scatterRows data selYear) 10

/-- The scatter view's `filtered` memo: validity filter, year filter, genre
bucket filter against its own top-10, then `slice(0, 2500)`. -/
def scatterFiltered (data : List TrackRow) (selYear : Option ℚ)
    (selGenre : Option String) : List TrackRow :=
  match selGenre with
  | none => (scatterRows data selYear).take 2500
  | some g =>
    ((scatterRows data selYear).filter
      (fun d => bucketLabel (scatterTop data selYear) d = g)).take 2500

/-! ## ParallelCoordsView filtering and sampling -/

/-- Validity filter of the parallel-coordinates view:
`d.followers_log != null && d.duration_min != null`. -/
def pcBase (data : List TrackRow) : List TrackRow :=
  data.filter (fun d => d.followers_log.isSome && d.duration_min.isSome)

/-- Parallel-coordinates rows after validity and year filtering — the list its
`topKGenres(filtered, 10)` call sees. -/
def pcRows (data : List TrackRow) (selYear : Option ℚ) : List TrackRow :=
  yearFilter (pcBase data) selYear

/-- The parallel-coordinates view's top-10 set when a genre selection is
active. -/
def pcTop (data : List TrackRow) (selYear : Option ℚ) : List String :=
  topKGenres (pcRows data selYear) 10

/-- The parallel-coordinates `filtered` rows (before sampling). -/
def pcFiltered (data : List TrackRow) (selYear : Option ℚ)
    (selGenre : Option String) : List TrackRow :=
  match selGenre with
  | none => pcRows data selYear
  | some g =>
    (pcRows data selYear).filter (fun d => bucketLabel (pcTop data selYear) d = g)

/-- The sample comparator `(a, b) => (b.track_popularity ?? 0) - (a.track_popularity ?? 0)`
(`track_popularity` is never nullish on a `TrackRow`). -/
def descByPop (x y : TrackRow) : Bool :=
  y.track_popularity ≤ x.track_popularity

/-- The parallel-coordinates `sample` memo:
`[...filtered].sort(descending popularity).slice(0, 200)`. -/
def pcSample (data : List TrackRow) (selYear : Option ℚ)
    (selGenre : Option String) : List TrackRow :=
  ((pcFiltered data selYear selGenre).mergeSort descByPop).take 200

/-! ## HeatmapView bucketing -/

/-- The heatmap's row filter: `d.release_year != null && d.genre_top != null`. -/
def heatFiltered (data : List TrackRow) : List TrackRow :=
  data.filter (fun d => d.release_year.isSome && d.genre_top.isSome)

/-- The heatmap reads `d.genre_top!` (non-null asserted, guaranteed by its
filter); missing genre is never mapped to `"Unknown"` here. -/
def heatLabel (d : TrackRow) : String :=
  d.genre_top.getD ""

/-- Keys in first-encounter order (the grouping order of `d3.rollups` and
the insertion order of `new Set`). -/
def firstKeys (labels : List String) : List String :=
  labels.foldl (fun acc g => if g ∈ acc then acc else acc ++ [g]) []

/-- The grouping-and-count of `d3.rollups(filtered, v => v.length, d => d.genre_top!)`:
keys in first-encounter order, each with its number of occurrences. -/
def rollupCounts (labels : List String) : List (String × ℕ) :=
  (firstKeys labels).map (fun k => (k, labels.count k))

/-- The heatmap's top-10 set: rollup counts, `sort(d3.descending on counts)`
(stable), `slice(0, 10)`, keys. -/
def heatTop (data : List TrackRow) : List String :=
  (((rollupCounts ((heatFiltered data).map heatLabel)).mergeSort descByCount).take 10).map
    Prod.fst

/-- Bucketed labels of the heatmap's filtered rows:
`top.has(d.genre_top!) ? d.genre_top! : "Other"`. -/
def heatBucketed (data : List TrackRow) : List String :=
  (heatFiltered data).map (fun d => if heatLabel d ∈ heatTop data then heatLabel d else "Other")

/-- The genre-axis comparator:
`(a, b) => a === "Other" ? 1 : b === "Other" ? -1 : a.localeCompare(b)`.
`localeCompare` is modelled as code-point order.  On the pair
(`"Other"`, `"Other"`) — which a deduplicated input never presents, and on
which the order of two identical strings is unobservable — the model returns
`true` so that the relation is total. -/
def genreLE (a b : String) : Bool :=
  if a = "Other" then b = "Other"
  else b = "Other" || a ≤ b

/-- The heatmap's genre axis: `Array.from(new Set(bucketed)).sort(comparator)`. -/
def heatGenres (data : List TrackRow) : List String :=
  (firstKeys (heatBucketed data)).mergeSort genreLE

/-! ### Counting-pass lemmas -/

theorem firstKeys_snoc (L : List String) (g : String) :
    firstKeys (L ++ [g]) =
      if g ∈ firstKeys L then firstKeys L else firstKeys L ++ [g] := by
  unfold firstKeys
  rw [List.foldl_append]
  rfl

theorem mem_foldl_firstKeys (g : String) :
    ∀ (L acc : List String),
      (g ∈ L.foldl (fun acc g => if g ∈ acc then acc else acc ++ [g]) acc) ↔
        g ∈ acc ∨ g ∈ L
  | [], acc => by simp
  | a :: as, acc => by
    rw [List.foldl_cons, mem_foldl_firstKeys g as]
    by_cases ha : a ∈ acc
    · rw [if_pos ha]
      constructor
      · rintro (h | h)
        · exact Or.inl h
        · exact Or.inr (List.mem_cons_of_mem a h)
      · rintro (h | h)
        · exact Or.inl h
        · rcases List.mem_cons.mp h with rfl | h
          · exact Or.inl ha
          · exact Or.inr h
    · rw [if_neg ha]
      simp only [List.mem_append, List.mem_singleton, List.mem_cons]
      tauto

theorem mem_firstKeys_iff (g : String) (L : List String) :
    g ∈ firstKeys L ↔ g ∈ L := by
  unfold firstKeys
  rw [mem_foldl_firstKeys g L []]
  simp

theorem nodup_foldl_firstKeys :
    ∀ (L acc : List String), acc.Nodup →
      (L.foldl (fun acc g => if g ∈ acc then acc else acc ++ [g]) acc).Nodup
  | [], _, h => h
  | a :: as, acc, h => by
    rw [List.foldl_cons]
    by_cases ha : a ∈ acc
    · rw [if_pos ha]
      exact nodup_foldl_firstKeys as acc h
    · rw [if_neg ha]
      refine nodup_foldl_firstKeys as _ ?_
      simp [List.nodup_append, h, ha]

theorem nodup_firstKeys (L : List String) : (firstKeys L).Nodup :=
  nodup_foldl_firstKeys L [] List.nodup_nil

theorem mapGet_mapBuilt (f : String → ℕ) :
    ∀ (ks : List String) (g : String),
      mapGet (ks.map (fun k => (k, f k))) g = if g ∈ ks then some (f g) else none
  | [], g => by simp [mapGet]
  | a :: as, g => by
    rw [List.map_cons, mapGet]
    by_cases ha : a = g
    · subst ha
      simp
    · rw [if_neg ha, mapGet_mapBuilt f as g]
      by_cases hg : g ∈ as
      · rw [if_pos hg, if_pos (List.mem_cons_of_mem a hg)]
      · rw [if_neg hg, if_neg (by
          intro hc
          rcases List.mem_cons.mp hc with rfl | hc
          · exact ha rfl
          · exact hg hc)]

theorem mapSet_of_not_mem {α : Type} (k : String) (v : α) :
    ∀ m : List (String × α), k ∉ m.map Prod.fst → mapSet m k v = m ++ [(k, v)]
  | [], _ => rfl
  | ⟨a, b⟩ :: ps, h => by
    have ha : ¬ a = k := by
      intro hc
      exact h (by simp [hc])
    rw [mapSet, if_neg ha, List.cons_append,
      mapSet_of_not_mem k v ps (fun hc => h (by simp [hc]))]

theorem mapSet_mapBuilt (f : String → ℕ) (v : ℕ) :
    ∀ (ks : List String), ks.Nodup → ∀ g ∈ ks,
      mapSet (ks.map (fun k => (k, f k))) g v =
        ks.map (fun k => (k, if k = g then v else f k))
  | [], _, g, hg => absurd hg (List.not_mem_nil g)
  | a :: as, hnd, g, hg => by
    rw [List.map_cons, List.map_cons, mapSet]
    by_cases ha : a = g
    · subst ha
      rw [if_pos rfl, if_pos rfl]
      congr 1
      have hnotin := (List.nodup_cons.mp hnd).1
      apply List.map_congr_left
      intro k hk
      rw [if_neg (fun hc : k = a => hnotin (hc ▸ hk))]
    · rw [if_neg ha, if_neg ha,
        mapSet_mapBuilt f v as (List.nodup_cons.mp hnd).2 g
          (by rcases List.mem_cons.mp hg with rfl | h; exact absurd rfl ha; exact h)]

/-- The `Map`-based counting pass of `topKGenres` computes exactly the
grouping-and-count of `d3.rollups`: same keys in first-encounter order, same
counts. -/
theorem countLabels_eq_rollupCounts : ∀ labels : List String,
    countLabels labels = rollupCounts labels := by
  have main : ∀ labels : List String,
      countLabels labels = (firstKeys labels).map (fun k => (k, labels.count k)) := by
    intro labels
    induction labels using List.reverseRecOn with
    | nil => rfl
    | append_singleton L g ih =>
      have hstep : countLabels (L ++ [g]) = bumpCount (countLabels L) g := by
        unfold countLabels
        rw [List.foldl_append]
        rfl
      rw [hstep, ih, firstKeys_snoc]
      unfold bumpCount
      rw [mapGet_mapBuilt]
      by_cases hg : g ∈ firstKeys L
      · rw [if_pos hg, if_pos hg,
          mapSet_mapBuilt _ _ _ (nodup_firstKeys L) g hg]
        apply List.map_congr_left
        intro k _
        by_cases hk : k = g
        · subst hk
          rw [if_pos rfl, List.count_append]
          simp
        · rw [if_neg hk, List.count_append]
          simp [List.count_singleton', hk]
      · rw [if_neg hg, if_neg hg,
          mapSet_of_not_mem _ _ _ (by
            rw [show ((firstKeys L).map (fun k => (k, L.count k))).map Prod.fst =
              firstKeys L by rw [List.map_map]; exact List.map_id _]
            exact hg)]
        rw [List.map_append]
        congr 1
        · apply List.map_congr_left
          intro k hk
          rw [List.count_append]
          have hk2 : ¬ k = g := fun hc => hg (hc ▸ hk)
          simp [List.count_singleton', hk2]
        · have hg2 : ¬ g ∈ L := fun hc => hg ((mem_firstKeys_iff g L).mpr hc)
          simp [List.count_append, List.count_eq_zero_of_not_mem hg2]
  intro labels
  rw [main]
  rfl

/-! ### Sort-comparator facts -/

theorem descByCount_trans : ∀ a b c : String × ℕ,
    descByCount a b = true → descByCount b c = true → descByCount a c = true := by
  intro a b c h1 h2
  simp only [descByCount, decide_eq_true_eq] at *
  exact le_trans h2 h1

theorem descByCount_total : ∀ a b : String × ℕ,
    (descByCount a b || descByCount b a) = true := by
  intro a b
  simp only [descByCount, Bool.or_eq_true, decide_eq_true_eq]
  exact le_total b.2 a.2

theorem descByPop_trans : ∀ a b c : TrackRow,
    descByPop a b = true → descByPop b c = true → descByPop a c = true := by
  intro a b c h1 h2
  simp only [descByPop, decide_eq_true_eq] at *
  exact le_trans h2 h1

theorem descByPop_total : ∀ a b : TrackRow,
    (descByPop a b || descByPop b a) = true := by
  intro a b
  simp only [descByPop, Bool.or_eq_true, decide_eq_true_eq]
  exact le_total b.track_popularity a.track_popularity

theorem genreLE_trans : ∀ a b c : String,
    genreLE a b = true → genreLE b c = true → genreLE a c = true := by
  intro a b c h1 h2
  unfold genreLE at *
  by_cases ha : a = "Other"
  · rw [if_pos ha] at h1 ⊢
    simp only [decide_eq_true_eq] at h1
    rw [if_pos h1] at h2
    simpa using h2
  · rw [if_neg ha] at h1 ⊢
    by_cases hb : b = "Other"
    · rw [if_pos hb] at h2
      simp only [decide_eq_true_eq] at h2
      simp [h2]
    · rw [if_neg hb] at h2
      simp only [Bool.or_eq_true, decide_eq_true_eq] at h1 h2 ⊢
      rcases h1 with h1 | h1
      · exact absurd h1 hb
      · rcases h2 with h2 | h2
        · exact Or.inl h2
        · exact Or.inr (le_trans h1 h2)

theorem genreLE_total : ∀ a b : String, (genreLE a b || genreLE b a) = true := by
  intro a b
  unfold genreLE
  by_cases ha : a = "Other"
  · by_cases hb : b = "Other"
    · simp [ha, hb]
    · simp [ha, hb]
  · by_cases hb : b = "Other"
    · simp [ha, hb]
    · simp only [if_neg ha, if_neg hb, Bool.or_eq_true, decide_eq_true_eq]
      rcases le_total a b with h | h
      · exact Or.inl (Or.inr h)
      · exact Or.inr (Or.inr h)

/-- Elements of the kept prefix of a sorted list dominate elements of the
dropped suffix. -/
theorem take_drop_rel_of_sorted {α : Type} {le : α → α → Bool} {l : List α} (k : ℕ)
    (h : List.Pairwise (fun a b => le a b = true) l) :
    ∀ x ∈ l.take k, ∀ y ∈ l.drop k, le x y = true := by
  intro x hx y hy
  rw [← List.take_append_drop k l] at h
  exact (List.pairwise_append.mp h).2.2 x hx y hy

/-! ## Claim C9: the parallel-coordinates sample -/

/-- Claim C9: for every dataset and selection, the parallel-coordinates
sample has at most 200 rows, every sampled row passed the view's filters, the
sample is ordered by descending `track_popularity`, and every filtered row
left out of the sample has `track_popularity` at most that of every sampled
row (the sample is the filtered rows of highest popularity). -/
theorem c9_parallel_sample (data : List TrackRow) (selYear : Option ℚ)
    (selGenre : Option String) :
    (pcSample data selYear selGenre).length ≤ 200 ∧
    (∀ r ∈ pcSample data selYear selGenre, r ∈ pcFiltered data selYear selGenre) ∧
    (pcSample data selYear selGenre).Pairwise
      (fun a b => b.track_popularity ≤ a.track_popularity) ∧
    (∀ r ∈ pcFiltered data selYear selGenre, r ∉ pcSample data selYear selGenre →
      ∀ q ∈ pcSample data selYear selGenre, r.track_popularity ≤ q.track_popularity) := by
  have hs : pcSample data selYear selGenre =
      ((pcFiltered data selYear selGenre).mergeSort descByPop).take 200 := rfl
  have hsorted := List.sorted_mergeSort descByPop_trans descByPop_total
    (pcFiltered data selYear selGenre)
  have hperm := List.mergeSort_perm (pcFiltered data selYear selGenre) descByPop
  refine ⟨?_, ?_, ?_, ?_⟩
  · rw [hs]
    exact List.length_take_le 200 _
  · intro r hr
    rw [hs] at hr
    exact hperm.mem_iff.mp (List.mem_of_mem_take hr)
  · rw [hs]
    have hp := hsorted.sublist (List.take_sublist 200 _)
    exact hp.imp (by
      intro a b h
      simpa [descByPop] using h)
  · intro r hrf hrs q hq
    rw [hs] at hrs hq
    have hrm : r ∈ (pcFiltered data selYear selGenre).mergeSort descByPop :=
      hperm.mem_iff.mpr hrf
    rw [← List.take_append_drop 200
      ((pcFiltered data selYear selGenre).mergeSort descByPop)] at hrm
    rcases List.mem_append.mp hrm with h | h
    · exact absurd h hrs
    · have := take_drop_rel_of_sorted 200 hsorted q hq r h
      simpa [descByPop] using this

/-! ## Claim C10: the heatmap genre axis -/

/-- Claim C10: for every dataset, the heatmap's genre-axis list contains each
bucketed genre label exactly once (it is duplicate-free and has exactly the
bucketed labels as members), and it is strictly sorted alphabetically except
that `"Other"` never precedes another label — so `"Other"`, when present, is
last. -/
theorem c10_heatmap_genre_axis (data : List TrackRow) :
    (heatGenres data).Nodup ∧
    (∀ g, g ∈ heatGenres data ↔ g ∈ heatBucketed data) ∧
    (heatGenres data).Pairwise (fun a b => a ≠ "Other" ∧ (b = "Other" ∨ a < b)) := by
  have hperm := List.mergeSort_perm (firstKeys (heatBucketed data)) genreLE
  have hnd : (heatGenres data).Nodup := by
    unfold heatGenres
    exact hperm.nodup_iff.mpr (nodup_firstKeys _)
  refine ⟨hnd, ?_, ?_⟩
  · intro g
    unfold heatGenres
    rw [List.mem_mergeSort, mem_firstKeys_iff]
  · have hsorted := List.sorted_mergeSort genreLE_trans genreLE_total
      (firstKeys (heatBucketed data))
    have hne : (heatGenres data).Pairwise (fun a b => a ≠ b) := hnd
    have hand := hne.and hsorted
    refine hand.imp ?_
    intro a b h
    obtain ⟨hab, hle⟩ := h
    unfold genreLE at hle
    by_cases ha : a = "Other"
    · rw [if_pos ha] at hle
      simp only [decide_eq_true_eq] at hle
      exact absurd (ha.trans hle.symm) hab
    · rw [if_neg ha] at hle
      refine ⟨ha, ?_⟩
      simp only [Bool.or_eq_true, decide_eq_true_eq] at hle
      rcases hle with h | h
      · exact Or.inl h
      · exact Or.inr (lt_of_le_of_ne h hab)

/-! ## Claim C8: the Top-K aggregator -/

/-- Entries of the counting pass are exactly (first-encounter key, its count). -/
theorem mem_countLabels_iff (labels : List String) (e : String × ℕ) :
    e ∈ countLabels labels ↔ e.1 ∈ labels ∧ e.2 = labels.count e.1 := by
  rw [countLabels_eq_rollupCounts]
  unfold rollupCounts
  rw [List.mem_map]
  constructor
  · rintro ⟨k, hk, rfl⟩
    exact ⟨(mem_firstKeys_iff k labels).mp hk, rfl⟩
  · rintro ⟨h1, h2⟩
    exact ⟨e.1, (mem_firstKeys_iff e.1 labels).mpr h1, by rw [← h2]⟩

/-- Stability of the descending count sort: within one frequency class the
sorted list keeps the counting pass's (first-encounter) order. -/
theorem sortedCounts_filter_stable (labels : List String) (c : ℕ) :
    ((countLabels labels).mergeSort descByCount).filter (fun e => e.2 = c) =
      (countLabels labels).filter (fun e => e.2 = c) := by
  have hpw : ((countLabels labels).filter (fun e => e.2 = c)).Pairwise
      (fun a b => descByCount a b = true) := by
    apply List.pairwise_of_forall_mem_list
    intro a ha b hb
    have ha2 := List.of_mem_filter ha
    have hb2 := List.of_mem_filter hb
    simp only [decide_eq_true_eq] at ha2 hb2
    simp [descByCount, ha2, hb2]
  have hsub : ((countLabels labels).filter (fun e => e.2 = c)).Sublist
      (((countLabels labels).mergeSort descByCount).filter (fun e => e.2 = c)) := by
    have h1 : ((countLabels labels).filter (fun e => e.2 = c)).Sublist
        ((countLabels labels).mergeSort descByCount) :=
      List.sublist_mergeSort descByCount_trans descByCount_total hpw
        (List.filter_sublist _)
    have h2 := h1.filter (fun e => e.2 = c)
    rwa [List.filter_filter,
      show (fun (e : String × ℕ) => decide (e.2 = c) && decide (e.2 = c)) =
        (fun e => decide (e.2 = c)) from funext (fun e => Bool.and_self _)] at h2
  have hlen : ((countLabels labels).filter (fun e => e.2 = c)).length =
      (((countLabels labels).mergeSort descByCount).filter (fun e => e.2 = c)).length :=
    (((List.mergeSort_perm (countLabels labels) descByCount).filter
      (fun e => e.2 = c)).length_eq).symm
  exact (hsub.eq_of_length hlen).symm

/-- Claim C8: `topKGenres` returns (as a list of distinct labels) the K most
frequent labels of the counting pass: at most K labels, all drawn from the
data, every returned label at least as frequent as every non-returned label,
ties resolved toward the counting pass's first-encounter order (within one
frequency the sorted counts keep encounter order), and `[a,a,a,b,b,c]` with
K = 2 gives exactly `{a, b}`. -/
theorem c8_topk_aggregator (data : List TrackRow) (k : ℕ) :
    (topKGenres data k).length = min k (firstKeys (data.map rowLabel)).length ∧
    (∀ g ∈ topKGenres data k, g ∈ data.map rowLabel) ∧
    (∀ g ∈ topKGenres data k, ∀ g' ∈ data.map rowLabel, g' ∉ topKGenres data k →
      (data.map rowLabel).count g' ≤ (data.map rowLabel).count g) ∧
    (∀ c : ℕ, ((countLabels (data.map rowLabel)).mergeSort descByCount).filter
      (fun e => e.2 = c) = (countLabels (data.map rowLabel)).filter (fun e => e.2 = c)) ∧
    topKLabels ["a", "a", "a", "b", "b", "c"] 2 = ["a", "b"] := by
  set L := data.map rowLabel with hL
  have hsorted := List.sorted_mergeSort descByCount_trans descByCount_total
    (countLabels L)
  have hperm := List.mergeSort_perm (countLabels L) descByCount
  have hlen : ((countLabels L).mergeSort descByCount).length =
      (firstKeys L).length := by
    rw [hperm.length_eq, countLabels_eq_rollupCounts]
    unfold rollupCounts
    rw [List.length_map]
  refine ⟨?_, ?_, ?_, fun c => sortedCounts_filter_stable L c, ?_⟩
  · show ((((countLabels L).mergeSort descByCount).take k).map Prod.fst).length = _
    rw [List.length_map, List.length_take, hlen]
  · intro g hg
    obtain ⟨e, he, rfl⟩ := List.mem_map.mp hg
    have := hperm.mem_iff.mp (List.mem_of_mem_take he)
    exact ((mem_countLabels_iff L e).mp this).1
  · intro g hg g' hg' hg'n
    obtain ⟨e, he, rfl⟩ := List.mem_map.mp hg
    have heM := hperm.mem_iff.mp (List.mem_of_mem_take he)
    have heC := ((mem_countLabels_iff L e).mp heM).2
    have he'M : (g', L.count g') ∈ (countLabels L).mergeSort descByCount :=
      hperm.mem_iff.mpr ((mem_countLabels_iff L (g', L.count g')).mpr ⟨hg', rfl⟩)
    rw [← List.take_append_drop k ((countLabels L).mergeSort descByCount)] at he'M
    rcases List.mem_append.mp he'M with h | h
    · exact absurd (List.mem_map_of_mem Prod.fst h) hg'n
    · have := take_drop_rel_of_sorted k hsorted e he (g', L.count g') h
      simp only [descByCount, decide_eq_true_eq] at this
      rw [heC] at this
      exact this
  · show ((((countLabels ["a", "a", "a", "b", "b", "c"]).mergeSort descByCount).take
      2).map Prod.fst) = ["a", "b"]
    rw [show countLabels ["a", "a", "a", "b", "b", "c"] =
      [("a", 3), ("b", 2), ("c", 1)] from by decide]
    rw [List.mergeSort_of_sorted (by decide)]
    rfl

/-! ## Claim C2: top-10 bucketing across the three views -/

/-- Amended claim C2: all three views run the same top-K algorithm with
K = 10 — the heatmap's `d3.rollups` + descending sort agrees with
`topKGenres`'s `Map` counting + descending sort — but each applies it to its
own filtered subset (the heatmap's ignores the year selection entirely), so
the resulting label sets need not coincide. -/
theorem c2_bucketing_amended :
    (∀ data : List TrackRow,
      heatTop data = topKLabels ((heatFiltered data).map heatLabel) 10) ∧
    (∀ (data : List TrackRow) (selYear : Option ℚ),
      scatterTop data selYear = topKLabels ((scatterRows data selYear).map rowLabel) 10) ∧
    (∀ (data : List TrackRow) (selYear : Option ℚ),
      pcTop data selYear = topKLabels ((pcRows data selYear).map rowLabel) 10) := by
  refine ⟨?_, fun _ _ => rfl, fun _ _ => rfl⟩
  intro data
  unfold heatTop topKLabels
  rw [countLabels_eq_rollupCounts]

/-- Row with genre `"a"`, year 2020, a duration — valid in every view. -/
noncomputable def c2RowA : TrackRow :=
  { track_id := "1", track_number := 0, track_popularity := 0, explicit := false,
    artist_popularity := 0, artist_followers := 0, album_total_tracks := 0,
    album_type := none, track_duration_ms := none, track_duration_min := some 1,
    release_year := some 2020, followers_log := some 0, duration_min := some 1,
    genre_top := some "a" }

/-- Row with genre `"b"`, year 2020, no duration — valid in the scatter and
heatmap views but dropped by the parallel-coordinates filter. -/
noncomputable def c2RowB : TrackRow :=
  { track_id := "2", track_number := 0, track_popularity := 0, explicit := false,
    artist_popularity := 0, artist_followers := 0, album_total_tracks := 0,
    album_type := none, track_duration_ms := none, track_duration_min := none,
    release_year := some 2020, followers_log := some 0, duration_min := none,
    genre_top := some "b" }

noncomputable def c2Data : List TrackRow := [c2RowA, c2RowB]

/-- Counterexample to claim C2: with the selection (2020, ·) active, the
scatter view's top-10 set is `{a, b}` while the parallel-coordinates view's
is `{a}` — the `"Other"` bucket does not denote the same genres in the two
views. -/
theorem c2_bucketing_counterexample :
    scatterTop c2Data (some 2020) = ["a", "b"] ∧
    pcTop c2Data (some 2020) = ["a"] ∧
    heatTop c2Data = ["a", "b"] ∧
    ¬ (∀ g, g ∈ scatterTop c2Data (some 2020) ↔ g ∈ pcTop c2Data (some 2020)) := by
  have hS : scatterTop c2Data (some 2020) = ["a", "b"] := by
    show topKLabels ((scatterRows c2Data (some 2020)).map rowLabel) 10 = _
    rw [show (scatterRows c2Data (some 2020)).map rowLabel = ["a", "b"] from rfl]
    unfold topKLabels
    rw [show countLabels ["a", "b"] = [("a", 1), ("b", 1)] from by decide,
      List.mergeSort_of_sorted (by decide)]
    rfl
  have hP : pcTop c2Data (some 2020) = ["a"] := by
    show topKLabels ((pcRows c2Data (some 2020)).map rowLabel) 10 = _
    rw [show (pcRows c2Data (some 2020)).map rowLabel = ["a"] from rfl]
    unfold topKLabels
    rw [show countLabels ["a"] = [("a", 1)] from by decide,
      List.mergeSort_of_sorted (by decide)]
    rfl
  have hH : heatTop c2Data = ["a", "b"] := by
    unfold heatTop
    rw [show (heatFiltered c2Data).map heatLabel = ["a", "b"] from rfl,
      show rollupCounts ["a", "b"] = [("a", 1), ("b", 1)] from by decide,
      List.mergeSort_of_sorted (by decide)]
    rfl
  refine ⟨hS, hP, hH, ?_⟩
  intro hall
  have := (hall "b").mp (by rw [hS]; decide)
  rw [hP] at this
  exact absurd this (by decide)

/-! ## Claim C7: the selection toggle -/

/-- Claim C7: `selectCell` clears to `(null, null)` exactly when the incoming
pair equals the current pair, otherwise moves directly to the incoming pair;
in every case year and genre are set or cleared together, and the two
concrete toggle scenarios behave as stated. -/
theorem c7_select_cell_toggle :
    (∀ (st : SelState) (y : ℚ) (g : String),
      (selectCell st y g = ⟨none, none⟩ ↔ st = ⟨some y, some g⟩) ∧
      (st ≠ ⟨some y, some g⟩ → selectCell st y g = ⟨some y, some g⟩) ∧
      (selectCell st y g = ⟨none, none⟩ ∨ selectCell st y g = ⟨some y, some g⟩)) ∧
    selectCell (selectCell ⟨none, none⟩ 2020 "pop") 2020 "pop" = ⟨none, none⟩ ∧
    selectCell (selectCell ⟨none, none⟩ 2020 "pop") 2021 "pop" = ⟨some 2021, some "pop"⟩ := by
  refine ⟨?_, by decide, by decide⟩
  intro st y g
  obtain ⟨sy, sg⟩ := st
  by_cases h : sy = some y ∧ sg = some g
  · obtain ⟨h1, h2⟩ := h
    subst h1
    subst h2
    simp [selectCell]
  · have hne : (⟨sy, sg⟩ : SelState) ≠ ⟨some y, some g⟩ := by
      intro hc
      injection hc with e1 e2
      exact h ⟨e1, e2⟩
    have hsel : selectCell ⟨sy, sg⟩ y g = ⟨some y, some g⟩ := by
      unfold selectCell
      rw [if_neg (by simpa using h)]
    refine ⟨?_, fun _ => hsel, Or.inr hsel⟩
    rw [hsel]
    constructor
    · intro hc
      injection hc with e1 e2
      exact absurd e1 (by simp)
    · intro hc
      exact absurd hc hne

/-! ## Claim C5: the genre extractor -/

/-- Claim C5: the extractor behaves exactly as described — trim; empty or
`"[]"` gives `"Unknown"`; otherwise strip one leading `[` and one trailing
`]`, split on commas, trim and unquote each piece, drop empties, first piece
or `"Unknown"` — and the five quoted examples hold, case preserved. -/
theorem c5_genre_extractor :
    (∀ g : List Char, parseGenresTopChars g = parseGenresTopClaim g) ∧
    parseGenresTop "" = "Unknown" ∧
    parseGenresTop "[]" = "Unknown" ∧
    parseGenresTop "['pop']" = "pop" ∧
    parseGenresTop "['pop', 'dance pop']" = "pop" ∧
    parseGenresTop "['Hip-Hop']" = "Hip-Hop" :=
  ⟨parseGenresTopChars_eq_claim, by decide, by decide, by decide, by decide, by decide⟩

/-! ## Claim C4: the followers logarithm -/

/-- Claim C4: on every raw row the normalizer stores the coerced follower
count (fallback 0), always defines `followers_log` as `log10(followers + 1)`,
and that value is at least 0 whenever the coerced count is nonnegative. -/
theorem c4_followers_log (currentYear : ℚ) (r : RawRow) :
    (preprocessRow currentYear r).artist_followers = toNumber r.artist_followers 0 ∧
    (preprocessRow currentYear r).followers_log =
      some (Real.logb 10 ((toNumber r.artist_followers 0 : ℝ) + 1)) ∧
    (0 ≤ toNumber r.artist_followers 0 →
      0 ≤ Real.logb 10 ((toNumber r.artist_followers 0 : ℝ) + 1)) := by
  refine ⟨rfl, rfl, ?_⟩
  intro h
  apply Real.logb_nonneg (by norm_num)
  have : (0 : ℝ) ≤ (toNumber r.artist_followers 0 : ℝ) := by exact_mod_cast h
  linarith

/-! ## Claim C1: the end-to-end merge scenario -/

/-- Source A's row for `t1`: `artist_followers = "999"`, nothing else. -/
def c1RawA : RawRow :=
  { track_id := "t1", artist_followers := some "999" }

/-- Source B's row for `t1`: `artist_popularity = "40"`, no
`artist_followers`. -/
def c1RawB : RawRow :=
  { track_id := "t1", artist_popularity := some "40" }

/-- The merged record for `t1` after normalizing both sources and merging by
`track_id` (host year taken as 2025; the scenario has no dates, so it plays
no role). -/
noncomputable def c1Merged : Option TrackRow :=
  mapGet (loadMerge (preprocessTracks 2025 [c1RawA]) (preprocessTracks 2025 [c1RawB])) "t1"

/-- Counterexample to claim C1: normalization runs before the merge and
materializes A's missing `artist_popularity` as `0`, which then overrides
B's `40` in `{ ...B, ...A }`; and `followers_log = log10(999 + 1) = 3`
exactly, not ≈ 2.9996 (that is `log10(999)`, forgetting the `+ 1`). -/
theorem c1_end_to_end_counterexample :
    c1Merged.map (fun r => r.artist_popularity) = some 0 ∧
    c1Merged.map (fun r => r.artist_popularity) ≠ some 40 ∧
    c1Merged.map (fun r => r.followers_log) = some (some (3 : ℝ)) ∧
    1 / 10000 < |(3 : ℝ) - 2.9996| := by
  have hm : c1Merged = some (preprocessRow 2025 c1RawA) := rfl
  have hlog : (preprocessRow 2025 c1RawA).followers_log = some (3 : ℝ) := by
    show some (Real.logb 10 ((followersOf c1RawA : ℝ) + 1)) = some (3 : ℝ)
    have h999 : followersOf c1RawA = 999 := by decide
    rw [h999]
    norm_num
    rw [show (1000 : ℝ) = 10 ^ (3 : ℕ) by norm_num, Real.logb_pow,
      Real.logb_self_eq_one (by norm_num)]
    norm_num
  refine ⟨by decide, by decide, ?_, by rw [abs_of_pos] <;> norm_num⟩
  rw [hm]
  show some (preprocessRow 2025 c1RawA).followers_log = some (some (3 : ℝ))
  rw [hlog]

/-- Amended claim C1: the merged record for `t1` is exactly A's normalized
row — `artist_followers = 999`, `followers_log = log10(1000) = 3`, and
`artist_popularity = 0` (A's materialized default overrides B's 40). -/
theorem c1_end_to_end_amended :
    c1Merged = some (preprocessRow 2025 c1RawA) ∧
    c1Merged.map (fun r => r.artist_followers) = some 999 ∧
    c1Merged.map (fun r => r.followers_log) = some (some (3 : ℝ)) ∧
    c1Merged.map (fun r => r.artist_popularity) = some 0 := by
  have hlog : (preprocessRow 2025 c1RawA).followers_log = some (3 : ℝ) := by
    show some (Real.logb 10 ((followersOf c1RawA : ℝ) + 1)) = some (3 : ℝ)
    have h999 : followersOf c1RawA = 999 := by decide
    rw [h999]
    norm_num
    rw [show (1000 : ℝ) = 10 ^ (3 : ℕ) by norm_num, Real.logb_pow,
      Real.logb_self_eq_one (by norm_num)]
    norm_num
  refine ⟨rfl, by decide, ?_, by decide⟩
  rw [show c1Merged = some (preprocessRow 2025 c1RawA) from rfl]
  show some (preprocessRow 2025 c1RawA).followers_log = some (some (3 : ℝ))
  rw [hlog]

/-! ## Claim C3: the merge contract on partial rows -/

/-- Claim C3: merging sequences A and B of partial rows keyed by identifier,
a key present only in B survives with its record unchanged, and a shared key
maps to `{ ...B-record, ...A-record }`, in which every field A's record has
takes A's value and every field only B's record has keeps B's value. -/
theorem c3_merge_semantics {V : Type} (A B : List (PartialRow V))
    (hndA : (A.map (fun r => r.track_id)).Nodup)
    (hndB : (B.map (fun r => r.track_id)).Nodup) :
    (∀ rB ∈ B, (∀ rA ∈ A, rA.track_id ≠ rB.track_id) →
      mapGet (partialMerge A B) rB.track_id = some rB) ∧
    (∀ rA ∈ A, ∀ rB ∈ B, rA.track_id = rB.track_id →
      mapGet (partialMerge A B) rA.track_id = some (spreadRows rB rA) ∧
      ∀ f, getField (spreadRows rB rA) f =
        match getField rA f with
        | some v => some v
        | none => getField rB f) := by
  constructor
  · intro rB hB hnot
    exact mapGet_jsMapMerge_b_only (fun r => r.track_id) spreadRows hndB hB hnot
  · intro rA hA rB hB hid
    refine ⟨?_, getField_spreadRows rB rA⟩
    exact mapGet_jsMapMerge_shared (fun (r : PartialRow V) => r.track_id) spreadRows
      hndA hndB hA hB hid

def c3a1 : PartialRow String :=
  { track_id := "id1", fields := [("popularity", "80")] }

def c3b1 : PartialRow String :=
  { track_id := "id1", fields := [("popularity", "50"), ("name", "X")] }

/-- Witness for claim C3 at the spec's example: A = `{id1: {popularity: 80}}`,
B = `{id1: {popularity: 50, name: "X"}}` merge to
`{id1: {popularity: 80, name: "X"}}`. -/
theorem c3_merge_semantics_witness :
    mapGet (partialMerge [c3a1] [c3b1]) "id1" = some (spreadRows c3b1 c3a1) ∧
    getField (spreadRows c3b1 c3a1) "popularity" = some "80" ∧
    getField (spreadRows c3b1 c3a1) "name" = some "X" := by
  have h := (c3_merge_semantics [c3a1] [c3b1] (by decide) (by decide)).2
    c3a1 (List.Mem.head _) c3b1 (List.Mem.head _) rfl
  exact ⟨h.1, by decide, by decide⟩

/-! ## Claim C6: the release year -/

theorem yearRawOf_eq_some_iff (r : RawRow) (w : ℚ) :
    yearRawOf r = some w ↔
      ∃ d, r.album_release_date = some d ∧ 4 ≤ d.length ∧
        jsNumberOfChars (d.data.take 4) = some w := by
  unfold yearRawOf
  cases hd : r.album_release_date with
  | none => simp
  | some d =>
    dsimp only
    by_cases hlen : 4 ≤ d.length
    · rw [if_pos hlen]
      constructor
      · intro h
        exact ⟨d, rfl, hlen, h⟩
      · rintro ⟨d', hd', _, hn'⟩
        injection hd' with hd'
        subst hd'
        exact hn'
    · rw [if_neg hlen]
      constructor
      · intro h
        simp at h
      · rintro ⟨d', hd', hlen', _⟩
        injection hd' with hd'
        subst hd'
        exact absurd hlen' hlen

theorem yearOf_eq_some_iff (cy : ℚ) (r : RawRow) (v : ℚ) :
    yearOf cy r = some v ↔ yearRawOf r = some v ∧ 1900 ≤ v ∧ v ≤ cy + 1 := by
  unfold yearOf
  cases hr : yearRawOf r with
  | none => simp
  | some w =>
    dsimp only
    by_cases hc : 1900 ≤ w ∧ w ≤ cy + 1
    · rw [if_pos hc]
      constructor
      · intro h
        injection h with h
        subst h
        exact ⟨rfl, hc.1, hc.2⟩
      · rintro ⟨hw, _, _⟩
        injection hw with hw
        rw [hw]
    · rw [if_neg hc]
      constructor
      · intro h
        simp at h
      · rintro ⟨hw, h1, h2⟩
        injection hw with hw
        subst hw
        exact absurd ⟨h1, h2⟩ hc

/-- Claim C6: the derived release year is the first 4 characters of the date
string parsed as a number, accepted exactly when the date is present, at
least 4 characters long, parses, and the value lies in
`[1900, currentYear + 1]` — otherwise the field is absent — and the four
quoted examples hold for any host year in `[2020, 2998)`. -/
theorem c6_release_year (currentYear : ℚ) (hlo : 2020 ≤ currentYear)
    (hhi : currentYear < 2998) :
    (∀ r : RawRow, (preprocessRow currentYear r).release_year = yearOf currentYear r) ∧
    (∀ (r : RawRow) (v : ℚ), yearOf currentYear r = some v ↔
      ∃ d, r.album_release_date = some d ∧ 4 ≤ d.length ∧
        jsNumberOfChars (d.data.take 4) = some v ∧ 1900 ≤ v ∧ v ≤ currentYear + 1) ∧
    yearOf currentYear { track_id := "t", album_release_date := some "2021-05-01" } =
      some 2021 ∧
    yearOf currentYear { track_id := "t", album_release_date := some "99" } = none ∧
    yearOf currentYear { track_id := "t", album_release_date := some "1899-01-01" } = none ∧
    yearOf currentYear { track_id := "t", album_release_date := some "2999-01-01" } = none := by
  refine ⟨fun r => rfl, ?_, ?_, rfl, ?_, ?_⟩
  · intro r v
    rw [yearOf_eq_some_iff, yearRawOf_eq_some_iff]
    constructor
    · rintro ⟨⟨d, hd, hlen, hn⟩, h1, h2⟩
      exact ⟨d, hd, hlen, hn, h1, h2⟩
    · rintro ⟨d, hd, hlen, hn, h1, h2⟩
      exact ⟨⟨d, hd, hlen, hn⟩, h1, h2⟩
  · have hraw : yearRawOf { track_id := "t", album_release_date := some "2021-05-01" } =
        some 2021 := by decide
    unfold yearOf
    rw [hraw]
    dsimp only
    rw [if_pos ⟨by norm_num, by linarith⟩]
  · have hraw : yearRawOf { track_id := "t", album_release_date := some "1899-01-01" } =
        some 1899 := by decide
    unfold yearOf
    rw [hraw]
    dsimp only
    rw [if_neg (fun hc => absurd hc.1 (by norm_num))]
  · have hraw : yearRawOf { track_id := "t", album_release_date := some "2999-01-01" } =
        some 2999 := by decide
    unfold yearOf
    rw [hraw]
    dsimp only
    rw [if_neg (fun hc => absurd hc.2 (by linarith))]

/-- Witness for claim C6 at host year 2025. -/
theorem c6_release_year_witness :
    yearOf 2025 { track_id := "t", album_release_date := some "2021-05-01" } = some 2021 ∧
    yearOf 2025 { track_id := "t", album_release_date := some "99" } = none ∧
    yearOf 2025 { track_id := "t", album_release_date := some "1899-01-01" } = none ∧
    yearOf 2025 { track_id := "t", album_release_date := some "2999-01-01" } = none := by
  have h := c6_release_year 2025 (by norm_num) (by norm_num)
  exact ⟨h.2.2.1, h.2.2.2.1, h.2.2.2.2.1, h.2.2.2.2.2⟩
